import Mathlib

/-!
Verification of pytimetk's future-frame engine
(`src/pytimetk/core/future.py`).

Shallow embedding conventions:
* Timestamps are integers (a fixed time unit, e.g. nanoseconds or days).
* A pandas datetime series is a `TzSeries`: the wall-clock values plus an
  optional fixed UTC offset (the series' timezone).  `pd.Series(s).values`
  converts timezone-aware data to naive UTC, which is modelled by
  `series_values`; `tz_localize` re-attaches the offset to naive walls.
* A frequency string is a positive integer step; `pd.date_range` with a
  `periods` count is `date_range` below (negative `periods` raises).
* Fallible pandas operations are `Except String`.
* `threads` enters the grouped branch already resolved by the external
  `get_threads` collaborator (positive pass-through per the spec).
-/

namespace Pytimetk

/-- A pandas datetime series: wall-clock values and an optional fixed UTC
offset standing for the series' timezone. -/
structure TzSeries where
  walls : List Int
  tz : Option Int
deriving Repr, DecidableEq

/-- The instant denoted by a wall-clock value under an optional UTC offset
(`wall = instant + offset`). -/
def instantOf (tz : Option Int) (w : Int) : Int :=
  w - tz.getD 0

/-- `pd.Series(idx).values`: timezone-aware datetime data is converted to
naive UTC (wall minus offset); naive data is returned unchanged. -/
def series_values (s : TzSeries) : List Int :=
  match s.tz with
  | none => s.walls
  | some o => s.walls.map (fun w => w - o)

/-- Modelled from the spec: `get_frequency` lives in
`pytimetk/core/frequency.py`, which is not among the provided sources.
Per spec 4.1 the engine sorts its input, fails when fewer than two distinct
timestamps remain, and otherwise returns the dominant (median) successive
delta.  The irregular-calendar classification (business days) has no
counterpart in integer time, so `force_regular` does not change the
returned step here. -/
def get_frequency (ts : List Int) (force_regular : Bool) : Except String Int :=
  let s := ts.insertionSort (· ≤ ·)
  if s.dedup.length < 2 then
    .error "frequency cannot be determined from the input"
  else
    let deltas := (s.zip s.tail).map (fun p => p.2 - p.1)
    let ds := deltas.insertionSort (· ≤ ·)
    .ok (ds.getD (ds.length / 2) 0)

/-- `pd.date_range(start=start, periods=periods, freq=freq)` for an integer
step `freq`: the arithmetic progression of length `periods` starting at
`start`.  A negative `periods` raises. -/
def date_range (start : Int) (periods : Int) (freq : Int) :
    Except String (List Int) :=
  if periods < 0 then .error "Number of samples must be non-negative"
  else .ok ((List.range periods.toNat).map (fun k : Nat => start + freq * (k : Int)))

/-- The inline `if freq is None: freq = get_frequency(dt_index, ...)` of
`make_future_timeseries` (future.py lines 342-343). -/
def resolve_freq (dt_index : List Int) (freq : Option Int)
    (force_regular : Bool) : Except String Int :=
  match freq with
  | some f => .ok f
  | none => get_frequency dt_index force_regular

/-- `make_future_timeseries` (future.py lines 320-358): fewer than two
timestamps without an explicit `freq` raises; the input is converted to a
naive index via `.values`; the frequency is resolved; `length_out + 1`
periods are generated from the last index entry and the first is dropped;
finally the input's timezone, if any, is re-attached (`tz_localize`). -/
def make_future_timeseries (idx : TzSeries) (length_out : Int)
    (freq : Option Int) (force_regular : Bool) : Except String TzSeries :=
  if idx.walls.length < 2 ∧ freq = none then
    .error "`freq` must be provided if `idx` contains only 1 date."
  else
    let dt_index := series_values idx
    match dt_index.getLast? with
    | none => .error "index -1 is out of bounds"
    | some anchor =>
      match resolve_freq dt_index freq force_regular with
      | .error e => .error e
      | .ok f =>
        match date_range anchor (length_out + 1) f with
        | .error e => .error e
        | .ok future_dates => .ok ⟨future_dates.drop 1, idx.tz⟩

/-- A row of a (future or extended) grouped frame: the group-key column and
the date column, each nullable as in pandas. -/
structure GRow where
  key : Option Int
  date : Option Int
deriving Repr, DecidableEq

/-- Left-to-right effectful map over `Except String`, stopping at the first
error — the evaluation order of the Python `for` loops. -/
def mapExcept (g : α → Except String β) : List α → Except String (List β)
  | [] => .ok []
  | a :: as =>
    match g a with
    | .error e => .error e
    | .ok b =>
      match mapExcept g as with
      | .error e => .error e
      | .ok bs => .ok (b :: bs)

/-- `_process_future_frame_subset` (future.py lines 363-378): for every row
`(key, last_date)` of the chunk it calls `make_future_timeseries` on the
single-element series of that group's last date, always with the already
resolved `freq`, and broadcasts the group key over the generated rows.
Each group contributes one small frame (a `List GRow`). -/
def _process_future_frame_subset (subset : List (Int × Int))
    (length_out : Int) (freq : Int) (force_regular : Bool) :
    Except String (List (List GRow)) :=
  mapExcept (fun row =>
    match make_future_timeseries ⟨[row.2], none⟩ length_out (some freq)
        force_regular with
    | .error e => .error e
    | .ok fd => .ok (fd.walls.map (fun d => ⟨some row.1, some d⟩)))
    subset

/-- The chunking of future.py line 200:
`[df.iloc[i:i+chunk_size] for i in range(0, len(df), chunk_size)]`.
`range(0, n, c)` enumerates `ceil(n / c)` indices `0, c, 2c, ...` (for
`c > 0`), and `df.iloc[i:i+c]` is `(l.drop i).take c`.  A zero step makes
Python's `range` raise, which the caller guards before calling this. -/
def chunk_subsets (c : Nat) (l : List α) : List (List α) :=
  (List.range ((l.length + c - 1) / c)).map (fun i => (l.drop (i * c)).take c)

/-- `data.agg({date_column: 'max'}).reset_index()` (future.py line 197):
each group's key together with its maximum date.  A pandas groupby never
produces an empty group, so the error branch is unreachable in practice. -/
def last_dates_of (groups : List (Int × List Int)) :
    Except String (List (Int × Int)) :=
  mapExcept (fun g =>
    match g.2.max? with
    | none => .error "max of an empty group"
    | some m => .ok (g.1, m)) groups

/-- The once-per-call frequency resolution of the grouped branch
(future.py lines 191-195): an explicit `freq` passes through; otherwise the
frequency is inferred from the FIRST group's sorted date column. -/
def resolved_group_freq (groups : List (Int × List Int)) (freq : Option Int)
    (force_regular : Bool) : Except String Int :=
  match freq with
  | some f => .ok f
  | none =>
    match groups.head? with
    | none => .error "list index out of range"
    | some g => get_frequency (g.2.insertionSort (· ≤ ·)) force_regular

/-- The grouped branch of `future_frame` (future.py lines 185-224).
`obj` is `data.obj`, the underlying original rows; `groups` is the groupby
content in group order (sorted keys, or appearance order with
`sort=False`); `threads` is the worker count already resolved by
`get_threads`.  The frequency is resolved once, the per-group max-date
table is chunked with `chunk_size = int(group_count / threads)` (floor),
chunks are mapped in submission order (`ThreadPoolExecutor.map` preserves
order, and the workers are pure), the per-group frames are concatenated,
and the result is optionally bound after the original rows. -/
def future_frame_grouped (obj : List GRow) (groups : List (Int × List Int))
    (length_out : Int) (freq : Option Int) (force_regular : Bool)
    (bind_data : Bool) (threads : Nat) : Except String (List GRow) :=
  match resolved_group_freq groups freq force_regular with
  | .error e => .error e
  | .ok f =>
    match last_dates_of groups with
    | .error e => .error e
    | .ok last_dates =>
      let chunk_size := last_dates.length / threads
      if chunk_size = 0 then .error "range() arg 3 must not be zero"
      else
        match mapExcept
            (fun s => _process_future_frame_subset s length_out f force_regular)
            (chunk_subsets chunk_size last_dates) with
        | .error e => .error e
        | .ok results =>
          let future_dates_df := results.flatten.flatten
          .ok (if bind_data then obj ++ future_dates_df else future_dates_df)

/-- The plain-DataFrame branch of `future_frame` (future.py lines 167-183).
Rows are `(date, other-column)` pairs with the frame's timezone factored
out; the whole date column is fed to `make_future_timeseries`.  Note that
the `freq` argument is NOT forwarded on this branch (lines 170-174). -/
def future_frame (tz : Option Int) (rows : List (Int × Option Int))
    (length_out : Int) (freq : Option Int) (force_regular : Bool)
    (bind_data : Bool) : Except String (List (Int × Option Int)) :=
  match make_future_timeseries ⟨rows.map Prod.fst, tz⟩ length_out none
      force_regular with
  | .error e => .error e
  | .ok new_dates =>
    let new_rows := new_dates.walls.map (fun d => (d, (none : Option Int)))
    .ok (if bind_data then rows ++ new_rows else new_rows)

/-! ### Helper lemmas -/

theorem mapExcept_ok_of_forall {g : α → Except String β} {h : α → β}
    (l : List α) (hall : ∀ a ∈ l, g a = .ok (h a)) :
    mapExcept g l = .ok (l.map h) := by
  induction l with
  | nil => rfl
  | cons a as ih =>
    simp only [mapExcept, hall a (List.mem_cons_self a as),
      ih (fun x hx => hall x (List.mem_cons_of_mem _ hx)), List.map_cons]

theorem mapExcept_ok_length {g : α → Except String β} :
    ∀ {l : List α} {b : List β}, mapExcept g l = .ok b → b.length = l.length := by
  intro l
  induction l with
  | nil =>
    intro b hb
    simp only [mapExcept, Except.ok.injEq] at hb
    simp [← hb]
  | cons a as ih =>
    intro b hb
    simp only [mapExcept] at hb
    cases hga : g a with
    | error e => simp [hga] at hb
    | ok x =>
      rw [hga] at hb
      cases hmas : mapExcept g as with
      | error e => simp [hmas] at hb
      | ok xs =>
        rw [hmas] at hb
        simp only [Except.ok.injEq] at hb
        simp [← hb, ih hmas]

theorem mapExcept_append (g : α → Except String β) (l₁ l₂ : List α) :
    mapExcept g (l₁ ++ l₂) =
      match mapExcept g l₁ with
      | .error e => .error e
      | .ok b₁ =>
        match mapExcept g l₂ with
        | .error e => .error e
        | .ok b₂ => .ok (b₁ ++ b₂) := by
  induction l₁ with
  | nil =>
    simp only [List.nil_append, mapExcept]
    cases mapExcept g l₂ <;> rfl
  | cons a as ih =>
    simp only [List.cons_append, mapExcept, List.append_eq]
    cases g a with
    | error e => rfl
    | ok x =>
      rw [ih]
      cases mapExcept g as with
      | error e => rfl
      | ok xs =>
        cases mapExcept g l₂ <;> rfl

theorem chunk_subsets_nil (c : Nat) : chunk_subsets c ([] : List α) = [] := by
  unfold chunk_subsets
  rcases Nat.eq_zero_or_pos c with hc | hc
  · subst hc; simp
  · have h0 : (([] : List α).length + c - 1) / c = 0 :=
      Nat.div_eq_of_lt (by simp; omega)
    rw [h0]
    rfl

theorem chunk_subsets_cons {c : Nat} (hc : 0 < c) (l : List α) (hl : l ≠ []) :
    chunk_subsets c l = l.take c :: chunk_subsets c (l.drop c) := by
  unfold chunk_subsets
  have hlen : 1 ≤ l.length := List.length_pos.mpr hl
  have hcount : (l.length + c - 1) / c = ((l.drop c).length + c - 1) / c + 1 := by
    rw [List.length_drop]
    rcases le_or_lt l.length c with hle | hlt
    · have h1 : l.length - c + c - 1 = c - 1 := by omega
      have h2 : (c - 1) / c = 0 := Nat.div_eq_of_lt (by omega)
      have h5 : (l.length + c - 1) / c = 1 :=
        Nat.div_eq_of_lt_le (by omega) (by omega)
      rw [h1, h2, h5]
    · have h3 : l.length - c + c - 1 = l.length - 1 := by omega
      have h4 : l.length + c - 1 = (l.length - 1) + c := by omega
      rw [h3, h4, Nat.add_div_right _ hc]
  rw [hcount, List.range_succ_eq_map, List.map_cons, Nat.zero_mul,
    List.drop_zero, List.map_map]
  congr 1
  refine List.map_congr_left (fun i _ => ?_)
  simp only [Function.comp_apply]
  rw [List.drop_drop, Nat.succ_mul, Nat.add_comm]

theorem chunk_subsets_flatten {c : Nat} (hc : 0 < c) :
    ∀ l : List α, (chunk_subsets c l).flatten = l := by
  have key : ∀ (n : Nat) (l : List α), l.length = n →
      (chunk_subsets c l).flatten = l := by
    intro n
    induction n using Nat.strong_induction_on with
    | _ n ih =>
      intro l hn
      cases l with
      | nil => rw [chunk_subsets_nil]; rfl
      | cons a as =>
        rw [chunk_subsets_cons hc _ (List.cons_ne_nil a as),
          List.flatten_cons,
          ih ((a :: as).drop c).length (by subst hn; simp; omega) _ rfl,
          List.take_append_drop]
  exact fun l => key l.length l rfl

theorem chunk_subsets_mem {c : Nat} (hc : 0 < c) :
    ∀ (l : List α), ∀ s ∈ chunk_subsets c l, s ≠ [] ∧ s.length ≤ c := by
  have key : ∀ (n : Nat) (l : List α), l.length = n →
      ∀ s ∈ chunk_subsets c l, s ≠ [] ∧ s.length ≤ c := by
    intro n
    induction n using Nat.strong_induction_on with
    | _ n ih =>
      intro l hn
      cases l with
      | nil => intro s hs; rw [chunk_subsets_nil] at hs; simp at hs
      | cons a as =>
        intro s hs
        rw [chunk_subsets_cons hc _ (List.cons_ne_nil a as)] at hs
        rcases List.mem_cons.mp hs with h | h
        · subst h
          constructor
          · simp only [ne_eq, List.take_eq_nil_iff, not_or]
            exact ⟨Nat.pos_iff_ne_zero.mp hc, List.cons_ne_nil a as⟩
          · simp
        · exact ih ((a :: as).drop c).length (by subst hn; simp; omega) _ rfl s h
  exact fun l => key l.length l rfl

theorem mapExcept_chunk_flatten {c : Nat} (hc : 0 < c)
    (g : α → Except String β) :
    ∀ l : List α,
      Except.map List.flatten
          (mapExcept (fun s => mapExcept g s) (chunk_subsets c l))
        = mapExcept g l := by
  have key : ∀ (n : Nat) (l : List α), l.length = n →
      Except.map List.flatten
          (mapExcept (fun s => mapExcept g s) (chunk_subsets c l))
        = mapExcept g l := by
    intro n
    induction n using Nat.strong_induction_on with
    | _ n ih =>
      intro l hn
      cases l with
      | nil => rw [chunk_subsets_nil]; rfl
      | cons a as =>
        rw [chunk_subsets_cons hc _ (List.cons_ne_nil a as)]
        have hsplit := mapExcept_append g ((a :: as).take c) ((a :: as).drop c)
        rw [List.take_append_drop] at hsplit
        rw [hsplit]
        simp only [mapExcept]
        cases h₀ : mapExcept g ((a :: as).take c) with
        | error e => rfl
        | ok b₀ =>
          have hrec := ih ((a :: as).drop c).length (by subst hn; simp; omega)
            _ rfl
          cases hrest : mapExcept (fun s => mapExcept g s)
              (chunk_subsets c ((a :: as).drop c)) with
          | error e =>
            rw [hrest] at hrec
            rw [← hrec]
            rfl
          | ok bs =>
            rw [hrest] at hrec
            rw [← hrec]
            rfl
  exact fun l => key l.length l rfl

theorem make_future_timeseries_ok_shape (idx : TzSeries) (lo : Int)
    (freq : Option Int) (fr : Bool) (f a : Int)
    (hcond : ¬(idx.walls.length < 2 ∧ freq = none))
    (hlast : (series_values idx).getLast? = some a)
    (hres : resolve_freq (series_values idx) freq fr = .ok f)
    (hlo : ¬(lo + 1 < 0)) :
    make_future_timeseries idx lo freq fr =
      .ok ⟨((List.range (lo + 1).toNat).map
        (fun k : Nat => a + f * (k : Int))).drop 1, idx.tz⟩ := by
  unfold make_future_timeseries
  rw [if_neg hcond]
  simp only [hlast, hres, date_range, if_neg hlo]

theorem range_map_drop_one (a f : Int) (n : Nat) :
    ((List.range (n + 1)).map (fun k : Nat => a + f * (k : Int))).drop 1
      = (List.range n).map (fun k : Nat => a + f * ((k : Int) + 1)) := by
  rw [List.range_succ_eq_map, List.map_cons, List.drop_one, List.tail_cons,
    List.map_map]
  refine List.map_congr_left (fun k _ => ?_)
  simp only [Function.comp_apply, Nat.succ_eq_add_one]
  push_cast
  ring

theorem make_future_timeseries_single (d f lo : Int) (fr : Bool)
    (hlo : 0 ≤ lo) :
    make_future_timeseries ⟨[d], none⟩ lo (some f) fr
      = .ok ⟨(List.range lo.toNat).map
          (fun k : Nat => d + f * ((k : Int) + 1)), none⟩ := by
  have hshape := make_future_timeseries_ok_shape ⟨[d], none⟩ lo (some f) fr f d
    (by simp) rfl rfl (by omega)
  rw [hshape]
  have hn : (lo + 1).toNat = lo.toNat + 1 := by omega
  rw [hn, range_map_drop_one]

/-! ### Claims -/

/-- C6 counterexample: a non-positive `length_out` does NOT fail with an
InputError.  With `length_out = 0` both `make_future_timeseries` and the
DataFrame branch of `future_frame` succeed, the former returning an empty
series and the latter returning the original rows unchanged. -/
theorem c6_counterexample :
    make_future_timeseries ⟨[0, 1], none⟩ 0 none false = .ok ⟨[], none⟩ ∧
    future_frame none [(0, some 7), (1, some 7)] 0 none false true
      = .ok [(0, some 7), (1, some 7)] := ⟨rfl, rfl⟩

/-- C6 (amended): neither function validates `length_out`.  A `length_out`
of `0` or `-1` silently yields zero future timestamps, and `length_out ≤ -2`
fails only inside date-range generation with a generic negative-periods
error — there is no eager InputError naming the argument. -/
theorem c6_length_out_not_validated (d f : Int) (fr : Bool) :
    make_future_timeseries ⟨[d], none⟩ 0 (some f) fr = .ok ⟨[], none⟩ ∧
    make_future_timeseries ⟨[d], none⟩ (-1) (some f) fr = .ok ⟨[], none⟩ ∧
    ∀ lo : Int, lo ≤ -2 →
      make_future_timeseries ⟨[d], none⟩ lo (some f) fr
        = .error "Number of samples must be non-negative" := by
  refine ⟨rfl, rfl, fun lo hlo => ?_⟩
  unfold make_future_timeseries
  rw [if_neg (by simp)]
  simp only [series_values, List.getLast?, resolve_freq, date_range,
    if_pos (show lo + 1 < 0 by omega)]

/-- C6 witness: the amended claim evaluated at `length_out = -2`. -/
theorem c6_witness :
    (-2 : Int) ≤ -2 ∧
    make_future_timeseries ⟨[0], none⟩ (-2) (some 1) false
      = .error "Number of samples must be non-negative" :=
  ⟨by decide, (c6_length_out_not_validated 0 1 false).2.2 (-2) (by decide)⟩

/-- C5 counterexample: an input resolving to FEWER than 2 timestamps with
an explicit `freq` does not always succeed — the empty series fails with an
index error at `dt_index[-1]` even though `freq` is supplied. -/
theorem c5_counterexample :
    make_future_timeseries ⟨[], none⟩ 5 (some 1) false
      = .error "index -1 is out of bounds" := rfl

/-- C5 (amended): for an input resolving to exactly ONE timestamp, omitting
`freq` fails with the InputError and supplying `freq` succeeds, the k-th
generated date being the anchor plus k periods (scenario 2: anchor
2011-01-01, `freq="D"`, `length_out=5` gives 2011-01-02 .. 2011-01-06). -/
theorem c5_single_timestamp (d f lo : Int) (fr : Bool) (hlo : 0 ≤ lo) :
    make_future_timeseries ⟨[d], none⟩ lo (some f) fr
      = .ok ⟨(List.range lo.toNat).map
          (fun k : Nat => d + f * ((k : Int) + 1)), none⟩ ∧
    make_future_timeseries ⟨[d], none⟩ lo none fr
      = .error "`freq` must be provided if `idx` contains only 1 date." := by
  refine ⟨make_future_timeseries_single d f lo fr hlo, ?_⟩
  unfold make_future_timeseries
  rw [if_pos ⟨by simp, rfl⟩]

/-- C5 witness: days since 2011-01-01; five daily future dates from the
single anchor are days 1..5 (2011-01-02 .. 2011-01-06), and omitting the
frequency raises. -/
theorem c5_witness :
    (0 : Int) ≤ 5 ∧
    make_future_timeseries ⟨[0], none⟩ 5 (some 1) false
      = .ok ⟨[1, 2, 3, 4, 5], none⟩ ∧
    make_future_timeseries ⟨[0], none⟩ 5 none false
      = .error "`freq` must be provided if `idx` contains only 1 date." :=
  ⟨by decide, (c5_single_timestamp 0 1 5 false (by decide)).1,
    (c5_single_timestamp 0 1 5 false (by decide)).2⟩

/-- C10: on the DataFrame branch `future_frame` never forwards its `freq`
argument to `make_future_timeseries`, so the result is identical for every
`freq`, and a frame with fewer than 2 rows fails with the single-date
InputError even when an explicit `freq` is supplied. -/
theorem c10_freq_not_forwarded (tz : Option Int)
    (rows : List (Int × Option Int)) (lo : Int) (fr bind : Bool)
    (f₁ f₂ : Option Int) :
    future_frame tz rows lo f₁ fr bind = future_frame tz rows lo f₂ fr bind ∧
    (rows.length < 2 →
      future_frame tz rows lo f₁ fr bind
        = .error "`freq` must be provided if `idx` contains only 1 date.") := by
  refine ⟨rfl, fun hshort => ?_⟩
  have hmk : make_future_timeseries ⟨rows.map Prod.fst, tz⟩ lo none fr
      = .error "`freq` must be provided if `idx` contains only 1 date." := by
    unfold make_future_timeseries
    rw [if_pos ⟨by simpa using hshort, rfl⟩]
  unfold future_frame
  rw [hmk]

/-- C10 witness: a one-row frame with an explicit daily frequency still
raises, and the result is the same for `freq = some 1` and `freq = none`. -/
theorem c10_witness :
    future_frame none [((3 : Int), (none : Option Int))] 5 (some 1) false
        false
      = future_frame none [((3 : Int), (none : Option Int))] 5 none false
          false ∧
    [((3 : Int), (none : Option Int))].length < 2 ∧
    future_frame none [((3 : Int), (none : Option Int))] 5 (some 1) false
        false
      = .error "`freq` must be provided if `idx` contains only 1 date." :=
  ⟨(c10_freq_not_forwarded none [(3, none)] 5 false false (some 1) none).1,
    by decide,
    (c10_freq_not_forwarded none [(3, none)] 5 false false (some 1) none).2
      (by decide)⟩

theorem make_future_timeseries_ok_length {idx : TzSeries} {lo : Int}
    {freq : Option Int} {fr : Bool} {out : TzSeries}
    (h : make_future_timeseries idx lo freq fr = .ok out) :
    out.walls.length = (lo + 1).toNat - 1 := by
  unfold make_future_timeseries at h
  split at h
  · exact absurd h (by simp)
  · cases hlast : (series_values idx).getLast? with
    | none =>
      simp only [hlast] at h
      exact absurd h (by simp)
    | some a =>
      simp only [hlast] at h
      cases hres : resolve_freq (series_values idx) freq fr with
      | error e =>
        simp only [hres] at h
        exact absurd h (by simp)
      | ok f =>
        simp only [hres] at h
        cases hdr : date_range a (lo + 1) f with
        | error e =>
          simp only [hdr] at h
          exact absurd h (by simp)
        | ok fd =>
          simp only [hdr, Except.ok.injEq] at h
          have hfd : fd.length = (lo + 1).toNat := by
            unfold date_range at hdr
            split at hdr
            · exact absurd hdr (by simp)
            · simp only [Except.ok.injEq] at hdr
              rw [← hdr]
              simp
          rw [← h]
          simp [hfd]

/-- C9: on an ungrouped DataFrame with `bind_data=True` the original rows
come first, unchanged and in order, followed by exactly `length_out` new
rows whose non-date column is null; with `bind_data=False` only the new
rows are returned. -/
theorem c9_future_frame_bind (tz : Option Int)
    (rows : List (Int × Option Int)) (lo : Int) (freq : Option Int)
    (fr : Bool) (nd : TzSeries) (hlo : 0 ≤ lo)
    (hmk : make_future_timeseries ⟨rows.map Prod.fst, tz⟩ lo none fr
      = .ok nd) :
    future_frame tz rows lo freq fr true
      = .ok (rows ++ nd.walls.map (fun d => (d, (none : Option Int)))) ∧
    future_frame tz rows lo freq fr false
      = .ok (nd.walls.map (fun d => (d, (none : Option Int)))) ∧
    nd.walls.length = lo.toNat := by
  have hlen := make_future_timeseries_ok_length hmk
  refine ⟨?_, ?_, by omega⟩
  · unfold future_frame
    rw [hmk]
    rfl
  · unfold future_frame
    rw [hmk]
    rfl

/-- C9 witness: a two-row frame extended by one future row; the original
rows keep their order and values, the new row has a null value column. -/
theorem c9_witness :
    (0 : Int) ≤ 1 ∧
    future_frame none [(0, some 9), (1, none)] 1 (some 99) false true
      = .ok [(0, some 9), (1, none), (2, none)] ∧
    future_frame none [(0, some 9), (1, none)] 1 (some 99) false false
      = .ok [(2, none)] := by
  have h := c9_future_frame_bind none [(0, some 9), (1, none)] 1 (some 99)
    false ⟨[2], none⟩ (by decide) rfl
  exact ⟨by decide, h.1, h.2.1⟩

/-- C4: with `freq=None` the grouped branch infers the frequency exactly
once, from the FIRST group's sorted timestamps, and then behaves exactly as
if that single frequency had been passed explicitly for every group — there
is no per-group inference. -/
theorem c4_freq_inferred_once (obj : List GRow) (g : Int × List Int)
    (gs : List (Int × List Int)) (lo : Int) (fr bind : Bool)
    (threads : Nat) :
    future_frame_grouped obj (g :: gs) lo none fr bind threads
      = match get_frequency (g.2.insertionSort (· ≤ ·)) fr with
        | .error e => .error e
        | .ok f =>
            future_frame_grouped obj (g :: gs) lo (some f) fr bind threads := by
  unfold future_frame_grouped resolved_group_freq
  simp only [List.head?_cons]

theorem process_subset_ok (subset : List (Int × Int)) (lo f : Int)
    (fr : Bool) (hlo : 0 ≤ lo) :
    _process_future_frame_subset subset lo f fr
      = .ok (subset.map (fun row =>
          (List.range lo.toNat).map (fun j : Nat =>
            GRow.mk (some row.1) (some (row.2 + f * ((j : Int) + 1)))))) := by
  unfold _process_future_frame_subset
  apply mapExcept_ok_of_forall
  intro row _
  rw [make_future_timeseries_single row.2 f lo fr hlo]
  simp [List.map_map, Function.comp]

theorem chunk_subsets_whole (a : α) (as : List α) :
    chunk_subsets (a :: as).length (a :: as) = [a :: as] := by
  rw [chunk_subsets_cons (by simp) _ (List.cons_ne_nil a as),
    List.take_length, List.drop_length, chunk_subsets_nil]

theorem filter_flatMap_key_count (ld : List (Int × Int)) (n : Nat) (f : Int)
    (key : Int) :
    ((ld.flatMap (fun row => (List.range n).map (fun j : Nat =>
        GRow.mk (some row.1) (some (row.2 + f * ((j : Int) + 1)))))).filter
      (fun r => decide (r.key = some key))).length
    = n * ld.countP (fun row => decide (row.1 = key)) := by
  induction ld with
  | nil => simp
  | cons g gs ih =>
    rw [List.flatMap_cons, List.filter_append, List.length_append, ih,
      List.countP_cons, List.filter_map]
    by_cases hk : g.1 = key
    · subst hk
      simp [Function.comp_def, Nat.mul_succ]
      omega
    · simp only [Function.comp_def]
      simp [hk]

theorem countP_key_eq_one {ld : List (Int × Int)}
    (hnd : (ld.map Prod.fst).Nodup) {row : Int × Int} (hrow : row ∈ ld) :
    ld.countP (fun r => decide (r.1 = row.1)) = 1 := by
  induction ld with
  | nil => exact absurd hrow (List.not_mem_nil row)
  | cons g gs ih =>
    rw [List.map_cons, List.nodup_cons] at hnd
    rcases List.mem_cons.mp hrow with h | h
    · subst h
      rw [List.countP_cons]
      have h0 : gs.countP (fun r => decide (r.1 = row.1)) = 0 := by
        rw [List.countP_eq_zero]
        intro r hr
        simp only [decide_eq_true_eq]
        intro hcontra
        exact hnd.1 (hcontra ▸ List.mem_map_of_mem Prod.fst hr)
      simp [h0]
    · rw [List.countP_cons]
      have hne : ¬(g.1 = row.1) := fun hcontra =>
        hnd.1 (hcontra ▸ List.mem_map_of_mem Prod.fst h)
      simp [ih hnd.2 h, hne]

/-- C2: for a grouped table (with the default `threads = 1`), the generated
future rows are exactly, per group in group order, `length_out` rows whose
key column is that group's key broadcast and whose dates step from that
group's maximum date; in particular, for every key count a group with a
unique key contributes exactly `length_out` rows. -/
theorem c2_grouped_count (obj : List GRow) (groups : List (Int × List Int))
    (lo f : Int) (fr : Bool) (ld : List (Int × Int)) (hlo : 0 ≤ lo)
    (hne : groups ≠ []) (hld : last_dates_of groups = .ok ld) :
    future_frame_grouped obj groups lo (some f) fr false 1
      = .ok (ld.flatMap (fun row => (List.range lo.toNat).map (fun j : Nat =>
          GRow.mk (some row.1) (some (row.2 + f * ((j : Int) + 1)))))) ∧
    (∀ key : Int,
      ((ld.flatMap (fun row => (List.range lo.toNat).map (fun j : Nat =>
          GRow.mk (some row.1) (some (row.2 + f * ((j : Int) + 1)))))).filter
        (fun r => decide (r.key = some key))).length
      = lo.toNat * ld.countP (fun row => decide (row.1 = key))) ∧
    ((ld.map Prod.fst).Nodup → ∀ row ∈ ld,
      ((ld.flatMap (fun row => (List.range lo.toNat).map (fun j : Nat =>
          GRow.mk (some row.1) (some (row.2 + f * ((j : Int) + 1)))))).filter
        (fun r => decide (r.key = some row.1))).length = lo.toNat) := by
  have hldne : ld ≠ [] := by
    intro hcontra
    have := mapExcept_ok_length hld
    rw [hcontra] at this
    exact hne (List.eq_nil_of_length_eq_zero this.symm)
  refine ⟨?_, fun key => filter_flatMap_key_count ld lo.toNat f key,
    fun hnd row hrow => by
      rw [filter_flatMap_key_count ld lo.toNat f row.1,
        countP_key_eq_one hnd hrow, Nat.mul_one]⟩
  obtain ⟨a, as, rfl⟩ : ∃ a as, ld = a :: as := by
    cases ld with
    | nil => exact absurd rfl hldne
    | cons a as => exact ⟨a, as, rfl⟩
  have hall : ∀ s ∈ [a :: as],
      _process_future_frame_subset s lo f fr
        = .ok ((fun s : List (Int × Int) => s.map (fun row =>
            (List.range lo.toNat).map (fun j : Nat =>
              GRow.mk (some row.1) (some (row.2 + f * ((j : Int) + 1)))))) s)
      := by
    intro s hs
    rw [List.mem_singleton.mp hs]
    exact process_subset_ok (a :: as) lo f fr hlo
  have hproc := mapExcept_ok_of_forall [a :: as] hall
  unfold future_frame_grouped resolved_group_freq
  simp only [hld, Nat.div_one, chunk_subsets_whole a as, hproc]
  simp [List.flatMap_def]

/-- C2 witness: 3 groups with distinct last dates, `length_out = 2`,
`bind_data = False` — exactly 6 rows, 2 per group, keys broadcast. -/
theorem c2_witness :
    future_frame_grouped [] [(1, [10]), (2, [20]), (3, [30])] 2 (some 1)
        false false 1
      = .ok [⟨some 1, some 11⟩, ⟨some 1, some 12⟩, ⟨some 2, some 21⟩,
          ⟨some 2, some 22⟩, ⟨some 3, some 31⟩, ⟨some 3, some 32⟩] ∧
    ([⟨some 1, some 11⟩, ⟨some 1, some 12⟩, ⟨some 2, some 21⟩,
      ⟨some 2, some 22⟩, ⟨some 3, some 31⟩,
      ⟨some 3, some 32⟩] : List GRow).length = 6 := by
  have h := c2_grouped_count [] [(1, [10]), (2, [20]), (3, [30])] 2 1 false
    [(1, 10), (2, 20), (3, 30)] (by decide) (by decide) rfl
  exact ⟨h.1, rfl⟩

/-- C3 counterexample: 5 groups and 2 workers.  The code computes
`chunk_size = int(5 / 2) = 2` (floor), producing three chunks of sizes
2, 2, 1 — not chunks of size `ceil(5 / 2) = 3` as claimed. -/
theorem c3_counterexample :
    chunk_subsets
        (([(1, 10), (2, 20), (3, 30), (4, 40), (5, 50)]
          : List (Int × Int)).length / 2)
        [(1, 10), (2, 20), (3, 30), (4, 40), (5, 50)]
      = [[(1, 10), (2, 20)], [(3, 30), (4, 40)], [(5, 50)]] ∧
    ([(1, 10), (2, 20), (3, 30), (4, 40), (5, 50)]
      : List (Int × Int)).length / 2 = 2 ∧
    (([(1, 10), (2, 20), (3, 30), (4, 40), (5, 50)]
      : List (Int × Int)).length + 2 - 1) / 2 = 3 ∧
    ¬((2 : Nat) = 3) := by
  refine ⟨rfl, rfl, rfl, by decide⟩

/-- C3 (amended): the chunk size is `floor(group_count / threads)` (not
ceil); with `1 ≤ threads ≤ group_count` the chunks are contiguous,
non-empty, of length at most the chunk size, and their concatenation is
exactly the per-group table — every group in exactly one chunk. -/
theorem c3_chunks_floor_partition (ld : List (Int × Int)) (threads : Nat)
    (h1 : 1 ≤ threads) (hn : threads ≤ ld.length) :
    (chunk_subsets (ld.length / threads) ld).flatten = ld ∧
    ∀ s ∈ chunk_subsets (ld.length / threads) ld,
      s ≠ [] ∧ s.length ≤ ld.length / threads := by
  have hc : 0 < ld.length / threads := Nat.div_pos hn (by omega)
  exact ⟨chunk_subsets_flatten hc ld, chunk_subsets_mem hc ld⟩

/-- C3 witness: 3 groups over 2 workers; the computed chunks concatenate
back to the group table. -/
theorem c3_witness :
    (1 : Nat) ≤ 2 ∧
    (2 : Nat) ≤ ([(1, 10), (2, 20), (3, 30)] : List (Int × Int)).length ∧
    (chunk_subsets
        (([(1, 10), (2, 20), (3, 30)] : List (Int × Int)).length / 2)
        ([(1, 10), (2, 20), (3, 30)] : List (Int × Int))).flatten
      = ([(1, 10), (2, 20), (3, 30)] : List (Int × Int)) :=
  ⟨by decide, by decide,
    (c3_chunks_floor_partition [(1, 10), (2, 20), (3, 30)] 2 (by decide)
      (by decide)).1⟩

/-- C8 counterexample: `threads` larger than the group count crashes — with
one group, `threads = 2` gives `chunk_size = int(1 / 2) = 0` and
`range(0, 1, 0)` raises, while `threads = 1` succeeds; so varying
`threads` over arbitrary positive values does NOT preserve the result. -/
theorem c8_counterexample :
    future_frame_grouped [] [(5, [0, 3])] 1 (some 1) false false 2
      = .error "range() arg 3 must not be zero" ∧
    future_frame_grouped [] [(5, [0, 3])] 1 (some 1) false false 1
      = .ok [⟨some 5, some 4⟩] := ⟨rfl, rfl⟩

/-- C8 (amended): for any two thread counts between 1 and the number of
groups, `future_frame` on a grouped table produces literally the same
result (same rows, same order) — the chunking only regroups the same
per-group work. -/
theorem c8_thread_invariance (obj : List GRow)
    (groups : List (Int × List Int)) (lo : Int) (freq : Option Int)
    (fr bind : Bool) (t₁ t₂ : Nat)
    (h₁ : 1 ≤ t₁) (h₁n : t₁ ≤ groups.length)
    (h₂ : 1 ≤ t₂) (h₂n : t₂ ≤ groups.length) :
    future_frame_grouped obj groups lo freq fr bind t₁
      = future_frame_grouped obj groups lo freq fr bind t₂ := by
  unfold future_frame_grouped
  cases resolved_group_freq groups freq fr with
  | error e => rfl
  | ok f =>
    cases hld : last_dates_of groups with
    | error e => rfl
    | ok ld =>
      have hlen := mapExcept_ok_length hld
      have hc₁ : 0 < ld.length / t₁ := Nat.div_pos (by omega) (by omega)
      have hc₂ : 0 < ld.length / t₂ := Nat.div_pos (by omega) (by omega)
      simp only [_process_future_frame_subset,
        if_neg (Nat.pos_iff_ne_zero.mp hc₁),
        if_neg (Nat.pos_iff_ne_zero.mp hc₂)]
      have e := (mapExcept_chunk_flatten hc₁
          (fun row =>
            match make_future_timeseries ⟨[row.2], none⟩ lo (some f) fr with
            | .error e => .error e
            | .ok fd => .ok (fd.walls.map (fun d => GRow.mk (some row.1) (some d))))
          ld).trans
        (mapExcept_chunk_flatten hc₂
          (fun row =>
            match make_future_timeseries ⟨[row.2], none⟩ lo (some f) fr with
            | .error e => .error e
            | .ok fd => .ok (fd.walls.map (fun d => GRow.mk (some row.1) (some d))))
          ld).symm
      cases hX₁ : mapExcept
          (fun s => mapExcept
            (fun row =>
              match make_future_timeseries ⟨[row.2], none⟩ lo (some f) fr with
              | .error e => .error e
              | .ok fd => .ok (fd.walls.map (fun d => GRow.mk (some row.1) (some d))))
            s)
          (chunk_subsets (ld.length / t₁) ld) with
      | error d₁ =>
        cases hX₂ : mapExcept
            (fun s => mapExcept
              (fun row =>
                match make_future_timeseries ⟨[row.2], none⟩ lo (some f)
                    fr with
                | .error e => .error e
                | .ok fd => .ok (fd.walls.map (fun d => GRow.mk (some row.1) (some d))))
              s)
            (chunk_subsets (ld.length / t₂) ld) with
        | error d₂ =>
          rw [hX₁, hX₂] at e
          simp only [Except.map, Except.error.injEq] at e
          subst e
          rfl
        | ok r₂ =>
          rw [hX₁, hX₂] at e
          simp [Except.map] at e
      | ok r₁ =>
        cases hX₂ : mapExcept
            (fun s => mapExcept
              (fun row =>
                match make_future_timeseries ⟨[row.2], none⟩ lo (some f)
                    fr with
                | .error e => .error e
                | .ok fd => .ok (fd.walls.map (fun d => GRow.mk (some row.1) (some d))))
              s)
            (chunk_subsets (ld.length / t₂) ld) with
        | error d₂ =>
          rw [hX₁, hX₂] at e
          simp [Except.map] at e
        | ok r₂ =>
          rw [hX₁, hX₂] at e
          simp only [Except.map, Except.ok.injEq] at e
          show Except.ok
              (if bind = true then obj ++ r₁.flatten.flatten
                else r₁.flatten.flatten)
            = Except.ok
              (if bind = true then obj ++ r₂.flatten.flatten
                else r₂.flatten.flatten)
          rw [e]

/-- C8 witness: 3 groups processed with 1 and with 3 workers give the same
result. -/
theorem c8_witness :
    (1 : Nat) ≤ 1 ∧ (1 : Nat) ≤ 3 ∧
    (1 : Nat) ≤ ([(1, [10]), (2, [20]), (3, [30])]
      : List (Int × List Int)).length ∧
    (3 : Nat) ≤ ([(1, [10]), (2, [20]), (3, [30])]
      : List (Int × List Int)).length ∧
    future_frame_grouped [] [(1, [10]), (2, [20]), (3, [30])] 2 (some 1)
        false false 1
      = future_frame_grouped [] [(1, [10]), (2, [20]), (3, [30])] 2 (some 1)
          false false 3 :=
  ⟨by decide, by decide, by decide, by decide,
    c8_thread_invariance [] [(1, [10]), (2, [20]), (3, [30])] 2 (some 1)
      false false 1 3 (by decide) (by decide) (by decide) (by decide)⟩

theorem get_frequency_short {ts : List Int} (fr : Bool) (h : ts.length < 2) :
    get_frequency ts fr
      = .error "frequency cannot be determined from the input" := by
  have h1 := (List.dedup_sublist (ts.insertionSort (· ≤ ·))).length_le
  simp only [List.length_insertionSort] at h1
  simp only [get_frequency, if_pos (show
    (ts.insertionSort (· ≤ ·)).dedup.length < 2 by omega)]

theorem sorted_le_getLast : ∀ {l : List Int}, l.Sorted (· ≤ ·) →
    ∀ (hne : l ≠ []), ∀ y ∈ l, y ≤ l.getLast hne := by
  intro l
  induction l with
  | nil => intro _ hne; exact absurd rfl hne
  | cons a as ih =>
    intro hs hne y hy
    cases as with
    | nil =>
      rw [List.mem_singleton] at hy
      subst hy
      exact le_of_eq rfl
    | cons b bs =>
      have hlast : (a :: b :: bs).getLast hne
          = (b :: bs).getLast (List.cons_ne_nil b bs) := rfl
      rcases List.mem_cons.mp hy with rfl | hy2
      · rw [hlast]
        exact List.rel_of_sorted_cons hs _ (List.getLast_mem _)
      · rw [hlast]
        exact ih hs.of_cons (List.cons_ne_nil b bs) y hy2

theorem getLast?_map_sub {l : List Int} (o : Int) (hne : l ≠ []) :
    (l.map (fun w => w - o)).getLast? = some (l.getLast hne - o) := by
  induction l with
  | nil => exact absurd rfl hne
  | cons a as ih =>
    cases as with
    | nil => rfl
    | cons b bs =>
      have ih2 := ih (List.cons_ne_nil b bs)
      rw [List.map_cons] at ih2
      rw [List.map_cons, List.map_cons, List.getLast?_cons_cons, ih2]
      rfl

/-- C1 counterexample: for a sorted but timezone-aware input the generated
timestamp is NOT strictly greater than the maximum input timestamp.  With
walls `[0, 24]` at UTC offset 30 (arbitrary integer time units) the code
converts to naive UTC `[-30, -6]`, steps the period 24 from `-6`,
and re-localizes: the generated wall is 18 — strictly BEFORE the maximum
input wall 24, and also before it as an instant. -/
theorem c1_counterexample :
    make_future_timeseries ⟨[0, 24], some 30⟩ 1 (some 24) false
      = .ok ⟨[18], some 30⟩ ∧
    (18 : Int) < 24 ∧
    instantOf (some 30) 18 < instantOf (some 30) 24 :=
  ⟨rfl, by decide, by decide⟩

/-- C1 (amended): for a timezone-NAIVE sorted timestamp sequence with a
positive resolved frequency and positive `length_out`,
`make_future_timeseries` returns exactly `length_out` timestamps in
strictly ascending order, each strictly greater than every input timestamp
(hence than the maximum, the anchor), the first being exactly one period
after the anchor. -/
theorem c1_future_dates_ascending (walls : List Int) (lo : Int)
    (freq : Option Int) (fr : Bool) (f : Int) (hne : walls ≠ [])
    (hsort : walls.Sorted (· ≤ ·)) (hlo : 0 < lo)
    (hres : resolve_freq walls freq fr = .ok f) (hf : 0 < f) :
    ∃ out, make_future_timeseries ⟨walls, none⟩ lo freq fr = .ok out ∧
      out.tz = none ∧
      out.walls.length = lo.toNat ∧
      out.walls.Sorted (· < ·) ∧
      (∀ x ∈ out.walls, ∀ y ∈ walls, y < x) ∧
      out.walls.head? = some (walls.getLast hne + f) := by
  have hcond : ¬(walls.length < 2 ∧ freq = none) := by
    rintro ⟨hlen, rfl⟩
    rw [show resolve_freq walls none fr = get_frequency walls fr from rfl,
      get_frequency_short fr hlen] at hres
    exact absurd hres (by simp)
  have hlast : (series_values ⟨walls, none⟩).getLast?
      = some (walls.getLast hne) :=
    List.getLast?_eq_getLast_of_ne_nil hne
  have hshape := make_future_timeseries_ok_shape ⟨walls, none⟩ lo freq fr f
    (walls.getLast hne) hcond hlast hres (by omega)
  rw [show (lo + 1).toNat = lo.toNat + 1 by omega, range_map_drop_one]
    at hshape
  refine ⟨_, hshape, rfl, by simp, ?_, ?_, ?_⟩
  · rw [List.Sorted, List.pairwise_map]
    refine (List.pairwise_lt_range lo.toNat).imp ?_
    intro k j hkj
    have hcast : (k : Int) + 1 < (j : Int) + 1 := by omega
    exact add_lt_add_left (mul_lt_mul_of_pos_left hcast hf) _
  · intro x hx y hy
    obtain ⟨k, _, rfl⟩ := List.mem_map.mp hx
    have hy2 : y ≤ walls.getLast hne := sorted_le_getLast hsort hne y hy
    have hpos : 0 < f * ((k : Int) + 1) :=
      mul_pos hf (by positivity)
    omega
  · obtain ⟨m, hm⟩ : ∃ m, lo.toNat = m + 1 := ⟨lo.toNat - 1, by omega⟩
    rw [hm, List.range_succ_eq_map, List.map_cons, List.head?_cons]
    norm_num

/-- C1 witness: sorted naive input `[0, 1]`, inferred frequency 1, one
future date — it is `getLast + 1 = 2`, after every input element. -/
theorem c1_witness :
    ∃ out, make_future_timeseries ⟨[0, 1], none⟩ 1 (some 1) false
        = .ok out ∧
      out.tz = none ∧
      out.walls.length = (1 : Int).toNat ∧
      out.walls.Sorted (· < ·) ∧
      (∀ x ∈ out.walls, ∀ y ∈ ([0, 1] : List Int), y < x) ∧
      out.walls.head?
        = some (([0, 1] : List Int).getLast (List.cons_ne_nil 0 [1]) + 1) :=
  c1_future_dates_ascending [0, 1] 1 (some 1) false 1
    (List.cons_ne_nil 0 [1]) (by decide) (by decide) rfl (by decide)

/-- C7 counterexample: timezone IS preserved, but with walls `[0, 10]` at
UTC offset 7 and explicit period 10 the generated timestamp 13 is only 3
units after the anchor 10 (in wall time and as an instant alike) — not
"one period step after the previous one". -/
theorem c7_counterexample :
    make_future_timeseries ⟨[0, 10], some 7⟩ 1 (some 10) false
      = .ok ⟨[13], some 7⟩ ∧
    ¬(instantOf (some 7) 13 - instantOf (some 7) 10 = 10) :=
  ⟨rfl, by decide⟩

/-- C7 (amended): for timezone-aware input the generated series carries the
SAME timezone, has exactly `length_out` entries, consecutive generated
timestamps are exactly one period apart, but the first generated wall time
is the anchor's UTC value (wall minus offset) plus one period — shifted
from the anchor's wall time by the UTC offset. -/
theorem c7_tz_preserved_shifted (walls : List Int) (o lo : Int)
    (freq : Option Int) (fr : Bool) (f : Int) (hne : walls ≠ [])
    (hlo : 0 < lo)
    (hres : resolve_freq (walls.map (fun w => w - o)) freq fr = .ok f) :
    ∃ out, make_future_timeseries ⟨walls, some o⟩ lo freq fr = .ok out ∧
      out.tz = some o ∧
      out.walls.length = lo.toNat ∧
      List.Chain' (fun x y => y - x = f) out.walls ∧
      out.walls.head? = some ((walls.getLast hne - o) + f) := by
  have hcond : ¬(walls.length < 2 ∧ freq = none) := by
    rintro ⟨hlen, rfl⟩
    rw [show resolve_freq (walls.map (fun w => w - o)) none fr
        = get_frequency (walls.map (fun w => w - o)) fr from rfl,
      get_frequency_short fr (by simpa using hlen)] at hres
    exact absurd hres (by simp)
  have hlast : (series_values ⟨walls, some o⟩).getLast?
      = some (walls.getLast hne - o) := getLast?_map_sub o hne
  have hshape := make_future_timeseries_ok_shape ⟨walls, some o⟩ lo freq fr f
    (walls.getLast hne - o) hcond hlast hres (by omega)
  rw [show (lo + 1).toNat = lo.toNat + 1 by omega, range_map_drop_one]
    at hshape
  refine ⟨_, hshape, rfl, by simp, ?_, ?_⟩
  · rw [List.chain'_map]
    obtain ⟨m, hm⟩ : ∃ m, lo.toNat = m + 1 := ⟨lo.toNat - 1, by omega⟩
    rw [hm]
    rw [List.chain'_range_succ]
    intro i _
    push_cast
    ring_nf
  · obtain ⟨m, hm⟩ : ∃ m, lo.toNat = m + 1 := ⟨lo.toNat - 1, by omega⟩
    rw [hm, List.range_succ_eq_map, List.map_cons, List.head?_cons]
    norm_num

/-- C7 witness: walls `[0, 10]` at offset 7, two future dates: timezone
kept, spacing is the period 10, first generated wall is `(10 - 7) + 10`. -/
theorem c7_witness :
    ∃ out, make_future_timeseries ⟨[0, 10], some 7⟩ 2 (some 10) false
        = .ok out ∧
      out.tz = some 7 ∧
      out.walls.length = (2 : Int).toNat ∧
      List.Chain' (fun x y => y - x = 10) out.walls ∧
      out.walls.head?
        = some ((([0, 10] : List Int).getLast (List.cons_ne_nil 0 [10]) - 7)
            + 10) :=
  c7_tz_preserved_shifted [0, 10] 7 2 (some 10) false 10
    (List.cons_ne_nil 0 [10]) (by decide) rfl

end Pytimetk
